import Mathlib

/-!
Shallow embedding of `src/lib/solutions/CHK/checkout_solution.py` (the
single-file version of the CHK solution; the split modules `items.py`,
`discounts.py`, `analysis.py`, `checkout.py` contain the same code).

Modelling conventions:
- Python floats are modelled as rationals (`ℚ`); every price computation in
  the program is a field operation on rationals, and no claim depends on
  IEEE-754 rounding of intermediate values.
- Python `int` is modelled as `ℤ`.
- Python's `list.sort` / `sorted` are stable.  A stable sort by key `k`
  descending produces the unique list ordered by "larger key first, equal
  keys: earlier original position first", so it is embedded as
  `List.insertionSort` with that total order (on pairs that carry the
  original position where the position matters).
- In-place mutation of basket entries through shared references is embedded
  as position-indexed functional update of the basket's product list.
-/

attribute [local semireducible] Rat.mul Rat.add Rat.sub Rat.inv

/-- items.py, class `Item`: one physical unit in the basket.  `price` is the
original price and is never mutated by any rule; `discounted_price` is the
current price; `discounted` records whether a rule has claimed the entry. -/
structure Item where
  sku : Char
  price : ℚ
  discounted_price : ℚ
  discounted : Bool
deriving DecidableEq, Repr

/-- Item construction as the dataclass performs it when `discounted_price`
is not supplied: `__post_init__` sets `discounted_price` to `price`, and
`discounted` defaults to `False`. -/
def mkItem (sku : Char) (price : ℚ) : Item :=
  ⟨sku, price, price, false⟩

/-- items.py, class `Basket`: an ordered list of product entries. -/
structure Basket where
  products : List Item
deriving DecidableEq, Repr

/-- `Basket.add_product` appends (a deep copy of) the product; in the pure
embedding a copy is just the value itself. -/
def Basket.add_product (b : Basket) (p : Item) : Basket :=
  ⟨b.products ++ [p]⟩

/-- The per-entry matching test shared by the single-SKU rules:
`product.sku == self.item.sku and not product.discounted`. -/
def skuMatch (sku : Char) (p : Item) : Bool :=
  p.sku == sku && !p.discounted

/-- discounts.py, `BulkDiscount.is_applicable`: count the non-discounted
entries of the rule's SKU and compare with the trigger quantity. -/
def BulkDiscount.is_applicable (item : Item) (tq : ℤ) (b : Basket) : Prop :=
  tq ≤ (b.products.countP (skuMatch item.sku) : ℤ)

instance (item : Item) (tq : ℤ) (b : Basket) :
    Decidable (BulkDiscount.is_applicable item tq b) :=
  inferInstanceAs (Decidable (_ ≤ _))

/-- The marking loop of `BulkDiscount.apply_discount`: walk the list,
carrying `num_changed` (`c`), and rewrite an entry when it matches the SKU,
is not discounted, and fewer than `tq` entries have been changed so far. -/
def bulkMarkAux (sku : Char) (newPrice : ℚ) (tq : ℤ) : ℤ → List Item → List Item
  | _, [] => []
  | c, p :: ps =>
    if skuMatch sku p = true ∧ c < tq then
      { p with discounted_price := newPrice, discounted := true } ::
        bulkMarkAux sku newPrice tq (c + 1) ps
    else
      p :: bulkMarkAux sku newPrice tq c ps

/-- discounts.py, `BulkDiscount.apply_discount`: guarded by
`is_applicable`; each claimed entry's price becomes `bulk_price / tq`. -/
def BulkDiscount.apply_discount (item : Item) (tq : ℤ) (bulk_price : ℚ)
    (b : Basket) : Basket :=
  if BulkDiscount.is_applicable item tq b then
    ⟨bulkMarkAux item.sku (bulk_price / (tq : ℚ)) tq 0 b.products⟩
  else b

/-- discounts.py, `BulkDiscount.calculate_magnitude`. -/
def BulkDiscount.calculate_magnitude (item : Item) (tq : ℤ) (bulk_price : ℚ) : ℚ :=
  item.price * (tq : ℚ) - bulk_price

/-- discounts.py, `FreeItemDiscount.is_applicable`: same count as the bulk
rule, on the trigger item's SKU. -/
def FreeItemDiscount.is_applicable (item : Item) (tq : ℤ) (b : Basket) : Prop :=
  tq ≤ (b.products.countP (skuMatch item.sku) : ℤ)

instance (item : Item) (tq : ℤ) (b : Basket) :
    Decidable (FreeItemDiscount.is_applicable item tq b) :=
  inferInstanceAs (Decidable (_ ≤ _))

/-- First loop of `FreeItemDiscount.apply_discount`: flip `discounted` on
matching entries, breaking as soon as the counter reaches `tq` (the break
leaves the rest of the list untouched). -/
def freeMarkAux (sku : Char) (tq : ℤ) : ℤ → List Item → List Item
  | _, [] => []
  | c, p :: ps =>
    if skuMatch sku p = true then
      if c + 1 = tq then { p with discounted := true } :: ps
      else { p with discounted := true } :: freeMarkAux sku tq (c + 1) ps
    else
      p :: freeMarkAux sku tq c ps

/-- Second loop of `FreeItemDiscount.apply_discount`: find the first
non-discounted entry of the free item's SKU, zero its price and flag it;
`none` when no such entry exists. -/
def grantFree (sku : Char) : List Item → Option (List Item)
  | [] => none
  | p :: ps =>
    if skuMatch sku p = true then
      some ({ p with discounted_price := 0, discounted := true } :: ps)
    else
      (grantFree sku ps).map (fun qs => p :: qs)

/-- discounts.py, `FreeItemDiscount.apply_discount`: claim the trigger
entries, then either discount an existing free-item entry or append a fresh
copy of the free item with price 0, already discounted. -/
def FreeItemDiscount.apply_discount (item : Item) (tq : ℤ) (discounted_item : Item)
    (b : Basket) : Basket :=
  if FreeItemDiscount.is_applicable item tq b then
    match grantFree discounted_item.sku (freeMarkAux item.sku tq 0 b.products) with
    | some ps2 => ⟨ps2⟩
    | none => ⟨freeMarkAux item.sku tq 0 b.products ++
        [{ discounted_item with discounted_price := 0, discounted := true }]⟩
  else b

/-- discounts.py, `FreeItemDiscount.calculate_magnitude`. -/
def FreeItemDiscount.calculate_magnitude (discounted_item : Item) : ℚ :=
  discounted_item.price

/-- The per-entry matching test of the combo rule:
`product.sku in self.letters_affected and not product.discounted`. -/
def anyMatch (letters : List Char) (p : Item) : Bool :=
  letters.contains p.sku && !p.discounted

/-- The order produced by Python's stable `list.sort(key=lambda x: x.price,
reverse=True)` on a list of (original position, entry) pairs: larger
original price first, ties broken by smaller original position. -/
def comboLex (a b : ℕ × Item) : Prop :=
  b.2.price < a.2.price ∨ (a.2.price = b.2.price ∧ a.1 ≤ b.1)

instance : DecidableRel comboLex := fun a b => by
  unfold comboLex; infer_instance

/-- discounts.py, `ComboDiscount.is_applicable`. -/
def ComboDiscount.is_applicable (items : List Item) (tq : ℤ) (b : Basket) : Prop :=
  tq ≤ (b.products.countP (anyMatch (items.map Item.sku)) : ℤ)

instance (items : List Item) (tq : ℤ) (b : Basket) :
    Decidable (ComboDiscount.is_applicable items tq b) :=
  inferInstanceAs (Decidable (_ ≤ _))

/-- The positions of the basket entries mutated by
`ComboDiscount.apply_discount`: the eligible entries are collected in basket
order, stably sorted descending by original price, and the first
`trigger_quantity` of them are claimed. -/
def comboClaimed (items : List Item) (tq : ℤ) (ps : List Item) : List ℕ :=
  ((List.insertionSort comboLex
      (ps.enum.filter (fun ip => anyMatch (items.map Item.sku) ip.2))).take
    tq.toNat).map Prod.fst

/-- discounts.py, `ComboDiscount.apply_discount`: guarded by
`is_applicable`; mutates exactly the claimed entries. -/
def ComboDiscount.apply_discount (items : List Item) (combo_price : ℚ) (tq : ℤ)
    (b : Basket) : Basket :=
  if ComboDiscount.is_applicable items tq b then
    ⟨b.products.enum.map (fun ip =>
      if ip.1 ∈ comboClaimed items tq b.products then
        { ip.2 with discounted_price := combo_price / (tq : ℚ), discounted := true }
      else ip.2)⟩
  else b

/-- discounts.py, `ComboDiscount.calculate_magnitude`. -/
def ComboDiscount.calculate_magnitude (items : List Item) (combo_price : ℚ)
    (tq : ℤ) : ℚ :=
  ((items.map Item.price).sum / (items.length : ℚ) - combo_price / (tq : ℚ)) * (tq : ℚ)

/-- discounts.py: the three concrete `DiscountStrategy` subclasses as a
tagged variant.  `DiscountStrategy.__init__` performs no validation: it only
stores the configuration (and precomputes the magnitude, which here is a
function of the stored fields). -/
inductive DiscountStrategy where
  | BulkDiscount (item : Item) (trigger_quantity : ℤ) (bulk_price : ℚ)
  | FreeItemDiscount (item : Item) (trigger_quantity : ℤ) (discounted_item : Item)
  | ComboDiscount (items : List Item) (combo_price : ℚ) (trigger_quantity : ℤ)
deriving DecidableEq, Repr

/-- The stored `trigger_quantity` field. -/
def DiscountStrategy.trigger_quantity : DiscountStrategy → ℤ
  | .BulkDiscount _ tq _ => tq
  | .FreeItemDiscount _ tq _ => tq
  | .ComboDiscount _ _ tq => tq

/-- The magnitude precomputed at construction time by
`self.magnitude = self.calculate_magnitude()`. -/
def DiscountStrategy.magnitude : DiscountStrategy → ℚ
  | .BulkDiscount item tq bp => BulkDiscount.calculate_magnitude item tq bp
  | .FreeItemDiscount _ _ ditem => FreeItemDiscount.calculate_magnitude ditem
  | .ComboDiscount items cp tq => ComboDiscount.calculate_magnitude items cp tq

/-- The matching predicate each variant's scans filter on. -/
def DiscountStrategy.matchPred : DiscountStrategy → Item → Bool
  | .BulkDiscount item _ _ => skuMatch item.sku
  | .FreeItemDiscount item _ _ => skuMatch item.sku
  | .ComboDiscount items _ _ => anyMatch (items.map Item.sku)

/-- The count of non-discounted entries matching the rule. -/
def DiscountStrategy.matchCount (d : DiscountStrategy) (b : Basket) : ℕ :=
  b.products.countP d.matchPred

/-- Dispatch of `is_applicable`; for every variant this is the comparison
of the match count against the trigger quantity. -/
def DiscountStrategy.is_applicable (d : DiscountStrategy) (b : Basket) : Prop :=
  d.trigger_quantity ≤ (d.matchCount b : ℤ)

instance (d : DiscountStrategy) (b : Basket) : Decidable (d.is_applicable b) :=
  inferInstanceAs (Decidable (_ ≤ _))

/-- Dispatch of `apply_discount` to the concrete subclass. -/
def DiscountStrategy.apply_discount : DiscountStrategy → Basket → Basket
  | .BulkDiscount item tq bp, b => BulkDiscount.apply_discount item tq bp b
  | .FreeItemDiscount item tq ditem, b => FreeItemDiscount.apply_discount item tq ditem b
  | .ComboDiscount items cp tq, b => ComboDiscount.apply_discount items cp tq b

/-- Fuel-indexed unfolding of the engine's inner
`while discount_strategy.is_applicable(basket): apply` loop.  Each
application of an applicable rule with positive trigger quantity removes at
least one non-discounted matching entry, so `matchCount` steps of fuel are
enough to reach the loop's exit condition. -/
def whileAux (r : DiscountStrategy) : ℕ → Basket → Basket
  | 0, b => b
  | n + 1, b => if r.is_applicable b then whileAux r n (r.apply_discount b) else b

/-- The engine's inner while loop for one rule. -/
def whileApplicable (r : DiscountStrategy) (b : Basket) : Basket :=
  whileAux r (r.matchCount b) b

/-- Number of iterations performed by the inner while loop. -/
def whileCntAux (r : DiscountStrategy) : ℕ → Basket → ℕ
  | 0, _ => 0
  | n + 1, b =>
    if r.is_applicable b then whileCntAux r n (r.apply_discount b) + 1 else 0

/-- Iteration count of the engine's inner loop for one rule. -/
def loopCount (r : DiscountStrategy) (b : Basket) : ℕ :=
  whileCntAux r (r.matchCount b) b

/-- The order produced by Python's stable
`sorted(discount_strategies, key=lambda x: x.magnitude, reverse=True)`:
larger magnitude first. -/
def magnitudeOrder (r s : DiscountStrategy) : Prop :=
  s.magnitude ≤ r.magnitude

instance : DecidableRel magnitudeOrder := fun r s => by
  unfold magnitudeOrder; infer_instance

/-- analysis.py, `OptimisedAnalysis.run`, first line: the strategies sorted
once, descending by precomputed magnitude (stable). -/
def sortStrategies (rules : List DiscountStrategy) : List DiscountStrategy :=
  List.insertionSort magnitudeOrder rules

/-- analysis.py, `OptimisedAnalysis.apply_discounts`: visit the rules in
the given order and run each rule's while loop. -/
def OptimisedAnalysis.apply_discounts (b : Basket)
    (rules : List DiscountStrategy) : Basket :=
  rules.foldl (fun bb r => whileApplicable r bb) b

/-- analysis.py, `OptimisedAnalysis.run`: sort, then apply. -/
def OptimisedAnalysis.run (b : Basket) (rules : List DiscountStrategy) : Basket :=
  OptimisedAnalysis.apply_discounts b (sortStrategies rules)

/-- checkout.py, `CheckoutProcess.total_price`: sum of the entries'
discounted prices. -/
def total_price (b : Basket) : ℚ :=
  (b.products.map Item.discounted_price).sum

/-- checkout_solution.py: the fixed catalog `main_dict`. -/
def main_dict : Char → Option Item
  | 'A' => some (mkItem 'A' 50)
  | 'B' => some (mkItem 'B' 30)
  | 'C' => some (mkItem 'C' 20)
  | 'D' => some (mkItem 'D' 15)
  | 'E' => some (mkItem 'E' 40)
  | 'F' => some (mkItem 'F' 10)
  | 'G' => some (mkItem 'G' 20)
  | 'H' => some (mkItem 'H' 10)
  | 'I' => some (mkItem 'I' 35)
  | 'J' => some (mkItem 'J' 60)
  | 'K' => some (mkItem 'K' 70)
  | 'L' => some (mkItem 'L' 90)
  | 'M' => some (mkItem 'M' 15)
  | 'N' => some (mkItem 'N' 40)
  | 'O' => some (mkItem 'O' 10)
  | 'P' => some (mkItem 'P' 50)
  | 'Q' => some (mkItem 'Q' 30)
  | 'R' => some (mkItem 'R' 50)
  | 'S' => some (mkItem 'S' 20)
  | 'T' => some (mkItem 'T' 20)
  | 'U' => some (mkItem 'U' 40)
  | 'V' => some (mkItem 'V' 50)
  | 'W' => some (mkItem 'W' 20)
  | 'X' => some (mkItem 'X' 17)
  | 'Y' => some (mkItem 'Y' 20)
  | 'Z' => some (mkItem 'Z' 21)
  | _ => none

/-- The basket-building loop of `checkout`: append the catalog entry for
each character, failing on the first character outside the catalog (the
failure makes the whole call return -1, so collecting it as `none` is
equivalent to the early `return -1`). -/
def buildBasket : List Char → Option (List Item)
  | [] => some []
  | c :: cs =>
    match main_dict c with
    | none => none
    | some it => (buildBasket cs).map (fun ps => it :: ps)

/-- Convenience: fetch a catalog item (total on the known SKUs used below). -/
def catalogItem (c : Char) : Item :=
  (main_dict c).getD (mkItem c 0)

/-- checkout_solution.py: the fixed rule list passed to the engine. -/
def discount_strategies : List DiscountStrategy :=
  [ .BulkDiscount (catalogItem 'A') 3 130
  , .BulkDiscount (catalogItem 'A') 5 200
  , .BulkDiscount (catalogItem 'B') 2 45
  , .FreeItemDiscount (catalogItem 'E') 2 (catalogItem 'B')
  , .FreeItemDiscount (catalogItem 'F') 2 (catalogItem 'F')
  , .BulkDiscount (catalogItem 'H') 5 45
  , .BulkDiscount (catalogItem 'H') 10 80
  , .BulkDiscount (catalogItem 'K') 2 120
  , .FreeItemDiscount (catalogItem 'N') 3 (catalogItem 'M')
  , .BulkDiscount (catalogItem 'P') 5 200
  , .BulkDiscount (catalogItem 'Q') 3 80
  , .FreeItemDiscount (catalogItem 'R') 3 (catalogItem 'Q')
  , .FreeItemDiscount (catalogItem 'U') 3 (catalogItem 'U')
  , .BulkDiscount (catalogItem 'V') 2 90
  , .BulkDiscount (catalogItem 'V') 3 130
  , .ComboDiscount
      [catalogItem 'S', catalogItem 'T', catalogItem 'X', catalogItem 'Y', catalogItem 'Z']
      45 3 ]

/-- Python's `round(x, 0)` (round half to even) followed by `int(...)`. -/
def pyRound (x : ℚ) : ℤ :=
  let n := ⌊x⌋
  let r := x - (n : ℚ)
  if r < 1 / 2 then n
  else if 1 / 2 < r then n + 1
  else if n % 2 = 0 then n else n + 1

/-- checkout_solution.py, `checkout`: validate and build the basket, run
the analysis, return the rounded total (or -1 on any unknown SKU). -/
def checkout (skus : List Char) : ℤ :=
  match buildBasket skus with
  | none => -1
  | some ps =>
    pyRound (total_price (OptimisedAnalysis.run ⟨ps⟩ discount_strategies))

/-- Default entry used only as the `List.getD` fallback in statements; the
statements always carry the bound that makes the fallback unreachable. -/
def item0 : Item := mkItem 'A' 0

lemma skuMatch_mark_false (sku : Char) (p : Item) (np : ℚ) :
    skuMatch sku { p with discounted_price := np, discounted := true } = false := by
  simp [skuMatch]

lemma skuMatch_flag_false (sku : Char) (p : Item) :
    skuMatch sku { p with discounted := true } = false := by
  simp [skuMatch]

lemma discounted_false_of_skuMatch {sku : Char} {p : Item}
    (h : skuMatch sku p = true) : p.discounted = false := by
  have := (by simpa [skuMatch] using h : p.sku = sku ∧ p.discounted = false)
  exact this.2

lemma bulkMarkAux_length (sku : Char) (np : ℚ) (tq : ℤ) :
    ∀ (ps : List Item) (c : ℤ), (bulkMarkAux sku np tq c ps).length = ps.length := by
  intro ps
  induction ps with
  | nil => intro c; rfl
  | cons p ps ih =>
    intro c
    simp only [bulkMarkAux]
    split <;> simp [ih]

lemma bulkMarkAux_of_ge (sku : Char) (np : ℚ) (tq : ℤ) :
    ∀ (ps : List Item) (c : ℤ), tq ≤ c → bulkMarkAux sku np tq c ps = ps := by
  intro ps
  induction ps with
  | nil => intro c _; rfl
  | cons p ps ih =>
    intro c hc
    simp only [bulkMarkAux]
    rw [if_neg fun hh => absurd hh.2 (not_lt.mpr hc), ih c hc]

lemma bulkMarkAux_getD (sku : Char) (np : ℚ) (tq : ℤ) :
    ∀ (ps : List Item) (c : ℤ) (i : ℕ), i < ps.length →
      (bulkMarkAux sku np tq c ps).getD i item0 =
        if skuMatch sku (ps.getD i item0) = true ∧
            c + (((ps.take i).countP (skuMatch sku) : ℕ) : ℤ) < tq then
          { ps.getD i item0 with discounted_price := np, discounted := true }
        else ps.getD i item0 := by
  intro ps
  induction ps with
  | nil => intro c i hi; simp at hi
  | cons p ps ih =>
    intro c i hi
    match i with
    | 0 =>
      simp only [List.getD_cons_zero, List.take_zero, List.countP_nil,
        Nat.cast_zero, add_zero, bulkMarkAux]
      by_cases hc : skuMatch sku p = true ∧ c < tq
      · rw [if_pos hc, if_pos hc, List.getD_cons_zero]
      · rw [if_neg hc, if_neg hc, List.getD_cons_zero]
    | Nat.succ i =>
      have hi' : i < ps.length := by simpa using hi
      simp only [bulkMarkAux, List.getD_cons_succ, List.take_succ_cons,
        List.countP_cons]
      by_cases hm : skuMatch sku p = true
      · by_cases hc : c < tq
        · rw [if_pos ⟨hm, hc⟩, List.getD_cons_succ, ih (c + 1) i hi', if_pos hm]
          refine if_congr (and_congr_right fun _ => ?_) rfl rfl
          push_cast
          omega
        · have h2' : ¬(skuMatch sku (ps.getD i item0) = true ∧
              c + (((ps.take i).countP (skuMatch sku) : ℕ) : ℤ) < tq) := by
            rintro ⟨-, h2⟩; omega
          have h3' : ¬(skuMatch sku (ps.getD i item0) = true ∧
              c + ((((ps.take i).countP (skuMatch sku) + 1 : ℕ)) : ℤ) < tq) := by
            rintro ⟨-, h2⟩; push_cast at h2; omega
          rw [if_neg fun hh => hc hh.2, List.getD_cons_succ, ih c i hi', if_pos hm,
            if_neg h2', if_neg h3']
      · rw [if_neg fun hh => hm hh.1, List.getD_cons_succ, ih c i hi', if_neg hm,
          add_zero]

lemma bulkMarkAux_countP (sku : Char) (np : ℚ) (tq : ℤ) :
    ∀ (ps : List Item) (c : ℤ),
      tq - c ≤ (ps.countP (skuMatch sku) : ℤ) →
      (bulkMarkAux sku np tq c ps).countP (skuMatch sku) =
        ps.countP (skuMatch sku) - (tq - c).toNat := by
  intro ps
  induction ps with
  | nil => intro c h; simp only [bulkMarkAux, List.countP_nil] at h ⊢; omega
  | cons p ps ih =>
    intro c h
    simp only [List.countP_cons] at h ⊢
    by_cases hm : skuMatch sku p = true
    · rw [if_pos hm] at h ⊢
      by_cases hc : c < tq
      · rw [bulkMarkAux, if_pos ⟨hm, hc⟩, List.countP_cons,
          skuMatch_mark_false, ih (c + 1) (by push_cast at h ⊢; omega)]
        simp only [if_neg (by simp : ¬(false = true))]
        push_cast at h
        omega
      · rw [bulkMarkAux, if_neg fun hh => hc hh.2,
          bulkMarkAux_of_ge sku np tq ps c (by omega), List.countP_cons, if_pos hm]
        omega
    · rw [if_neg hm] at h ⊢
      rw [bulkMarkAux, if_neg fun hh => hm hh.1, List.countP_cons, if_neg hm,
        ih c (by omega)]
      omega

/-- C2: when at least `trigger_quantity` non-discounted entries of the bulk
rule's SKU exist, one call to `apply_discount` keeps the basket length,
rewrites exactly the first `trigger_quantity` matching entries in basket
order (price becomes `bulk_price / trigger_quantity`, flag becomes true),
leaves every other entry unchanged, and the number of non-discounted
matching entries drops by exactly `trigger_quantity`. -/
theorem claim_C2_bulk_apply_spec (item : Item) (tq : ℤ) (bp : ℚ) (b : Basket)
    (happ : BulkDiscount.is_applicable item tq b) :
    (BulkDiscount.apply_discount item tq bp b).products.length =
      b.products.length ∧
    (∀ i, i < b.products.length →
      (BulkDiscount.apply_discount item tq bp b).products.getD i item0 =
        if skuMatch item.sku (b.products.getD i item0) = true ∧
            (((b.products.take i).countP (skuMatch item.sku) : ℕ) : ℤ) < tq then
          { b.products.getD i item0 with
              discounted_price := bp / (tq : ℚ), discounted := true }
        else b.products.getD i item0) ∧
    (BulkDiscount.apply_discount item tq bp b).products.countP
        (skuMatch item.sku) =
      b.products.countP (skuMatch item.sku) - tq.toNat := by
  have happ' : tq ≤ (b.products.countP (skuMatch item.sku) : ℤ) := happ
  unfold BulkDiscount.apply_discount
  rw [if_pos happ]
  refine ⟨bulkMarkAux_length _ _ _ _ _, fun i hi => ?_, ?_⟩
  · rw [bulkMarkAux_getD item.sku (bp / (tq : ℚ)) tq b.products 0 i hi]
    exact if_congr (and_congr_right fun _ => by omega) rfl rfl
  · have hc := bulkMarkAux_countP item.sku (bp / (tq : ℚ)) tq b.products 0
      (by omega)
    simpa using hc

/-- Witness for C2: the rule (A, 3, 130) on the basket A B A A. -/
theorem claim_C2_bulk_apply_spec_witness :
    (BulkDiscount.apply_discount (catalogItem 'A') 3 130
        ⟨[mkItem 'A' 50, mkItem 'B' 30, mkItem 'A' 50, mkItem 'A' 50]⟩).products.countP
        (skuMatch (catalogItem 'A').sku) =
      ([mkItem 'A' 50, mkItem 'B' 30, mkItem 'A' 50,
          mkItem 'A' 50].countP (skuMatch (catalogItem 'A').sku)) - (3 : ℤ).toNat :=
  (claim_C2_bulk_apply_spec (catalogItem 'A') 3 130
    ⟨[mkItem 'A' 50, mkItem 'B' 30, mkItem 'A' 50, mkItem 'A' 50]⟩
    (by decide)).2.2

/-- C8: whenever a rule's `is_applicable` is false on a basket, calling its
`apply_discount` on that basket returns the basket completely unchanged. -/
theorem claim_C8_inapplicable_apply_noop (d : DiscountStrategy) (b : Basket)
    (h : ¬ d.is_applicable b) : d.apply_discount b = b := by
  cases d with
  | BulkDiscount item tq bp =>
    have h' : ¬ BulkDiscount.is_applicable item tq b := h
    simp only [DiscountStrategy.apply_discount, BulkDiscount.apply_discount,
      if_neg h']
  | FreeItemDiscount item tq ditem =>
    have h' : ¬ FreeItemDiscount.is_applicable item tq b := h
    simp only [DiscountStrategy.apply_discount, FreeItemDiscount.apply_discount,
      if_neg h']
  | ComboDiscount items cp tq =>
    have h' : ¬ ComboDiscount.is_applicable items tq b := h
    simp only [DiscountStrategy.apply_discount, ComboDiscount.apply_discount,
      if_neg h']

/-- Witness for C8: a single A cannot trigger the 3-for-130 rule, and
applying the rule anyway changes nothing. -/
theorem claim_C8_inapplicable_apply_noop_witness :
    ¬ (DiscountStrategy.BulkDiscount (catalogItem 'A') 3 130).is_applicable
        ⟨[mkItem 'A' 50]⟩ ∧
    (DiscountStrategy.BulkDiscount (catalogItem 'A') 3 130).apply_discount
        ⟨[mkItem 'A' 50]⟩ = ⟨[mkItem 'A' 50]⟩ :=
  ⟨by decide, claim_C8_inapplicable_apply_noop _ _ (by decide)⟩

/-- C9 counterexample: a bulk rule with a negative trigger quantity is not
rejected at construction time: the constructor yields a rule value storing
`trigger_quantity = -1`, and that rule even reports itself applicable on
the empty basket. -/
theorem claim_C9_counterexample :
    (DiscountStrategy.BulkDiscount (mkItem 'A' 50) (-1) 130).trigger_quantity
        = -1 ∧
    (DiscountStrategy.BulkDiscount (mkItem 'A' 50) (-1) 130).is_applicable
        ⟨[]⟩ :=
  ⟨rfl, by decide⟩

/-- C9 amended: construction performs no validation at all.  A bulk rule
with a negative trigger quantity is accepted as-is; it is then applicable
on every basket while its `apply_discount` never changes anything (so the
engine's while loop would never terminate on it). -/
theorem claim_C9_no_construction_validation (item : Item) (bp : ℚ) (tq : ℤ)
    (htq : tq < 0) :
    (DiscountStrategy.BulkDiscount item tq bp).trigger_quantity = tq ∧
    ∀ b : Basket,
      (DiscountStrategy.BulkDiscount item tq bp).is_applicable b ∧
      (DiscountStrategy.BulkDiscount item tq bp).apply_discount b = b := by
  refine ⟨rfl, fun b => ⟨?_, ?_⟩⟩
  · have : (0 : ℤ) ≤ (b.products.countP (skuMatch item.sku) : ℤ) :=
      Int.natCast_nonneg _
    show tq ≤ (b.products.countP (skuMatch item.sku) : ℤ)
    omega
  · show BulkDiscount.apply_discount item tq bp b = b
    unfold BulkDiscount.apply_discount
    rw [if_pos, bulkMarkAux_of_ge item.sku (bp / (tq : ℚ)) tq b.products 0
      (by omega)]
    · have : (0 : ℤ) ≤ (b.products.countP (skuMatch item.sku) : ℤ) :=
        Int.natCast_nonneg _
      show tq ≤ (b.products.countP (skuMatch item.sku) : ℤ)
      omega

/-- Witness for the amended C9 at trigger quantity -1. -/
theorem claim_C9_no_construction_validation_witness :
    (-1 : ℤ) < 0 ∧
    ((DiscountStrategy.BulkDiscount (mkItem 'A' 50) (-1) 130).trigger_quantity
        = -1 ∧
     ∀ b : Basket,
       (DiscountStrategy.BulkDiscount (mkItem 'A' 50) (-1) 130).is_applicable b ∧
       (DiscountStrategy.BulkDiscount (mkItem 'A' 50) (-1)
           130).apply_discount b = b) :=
  ⟨by decide, claim_C9_no_construction_validation (mkItem 'A' 50) 130 (-1)
    (by decide)⟩

/-- C10: on input "FF" the checkout returns 20; the engine's final basket
holds the two original F entries, both discounted at their original price
10, plus a synthesized third F entry with price 0 already discounted; the
self-referential buy-2-get-1-free rule on F fires exactly once. -/
theorem claim_C10_checkout_FF :
    checkout ['F', 'F'] = 20 ∧
    OptimisedAnalysis.run ⟨[mkItem 'F' 10, mkItem 'F' 10]⟩ discount_strategies =
      ⟨[⟨'F', 10, 10, true⟩, ⟨'F', 10, 10, true⟩, ⟨'F', 10, 0, true⟩]⟩ ∧
    loopCount
        (DiscountStrategy.FreeItemDiscount (catalogItem 'F') 2 (catalogItem 'F'))
        ⟨[mkItem 'F' 10, mkItem 'F' 10]⟩ = 1 := by
  refine ⟨?_, ?_, ?_⟩ <;> decide

lemma buildBasket_eq_none_iff (skus : List Char) :
    buildBasket skus = none ↔ ∃ c ∈ skus, main_dict c = none := by
  induction skus with
  | nil => simp [buildBasket]
  | cons c cs ih =>
    simp only [buildBasket]
    cases h : main_dict c with
    | none =>
      constructor
      · intro _; exact ⟨c, List.mem_cons_self c cs, h⟩
      · intro _; rfl
    | some it =>
      constructor
      · intro hb
        rcases ih.1 (Option.map_eq_none'.mp hb) with ⟨d, hd, hnone⟩
        exact ⟨d, List.mem_cons_of_mem c hd, hnone⟩
      · rintro ⟨d, hd, hnone⟩
        rcases List.mem_cons.mp hd with rfl | hd'
        · rw [h] at hnone; exact absurd hnone (by simp)
        · exact Option.map_eq_none'.mpr (ih.2 ⟨d, hd', hnone⟩)

/-- C7: `checkout` rejects the whole input with -1 as soon as any character
is outside the catalog; otherwise it builds the basket from the catalog
entries in input order, runs the engine on it with the fixed rule list, and
returns the total rounded to an integer. -/
theorem claim_C7_checkout_validation (skus : List Char) :
    ((∃ c ∈ skus, main_dict c = none) → checkout skus = -1) ∧
    ((∀ c ∈ skus, main_dict c ≠ none) →
      ∃ ps, buildBasket skus = some ps ∧
        checkout skus =
          pyRound (total_price (OptimisedAnalysis.run ⟨ps⟩ discount_strategies))) := by
  constructor
  · intro h
    have hb : buildBasket skus = none := (buildBasket_eq_none_iff skus).2 h
    unfold checkout
    rw [hb]
  · intro h
    have hb : buildBasket skus ≠ none := fun hn => by
      rcases (buildBasket_eq_none_iff skus).1 hn with ⟨c, hc, hnone⟩
      exact h c hc hnone
    rcases Option.ne_none_iff_exists'.mp hb with ⟨ps, hps⟩
    refine ⟨ps, hps, ?_⟩
    unfold checkout
    rw [hps]

/-- Witness for C7: the input "A1" is rejected with -1 because of the '1';
the input "A" is priced through the engine. -/
theorem claim_C7_checkout_validation_witness :
    checkout ['A', '1'] = -1 ∧
    ∃ ps, buildBasket ['A'] = some ps ∧
      checkout ['A'] =
        pyRound (total_price (OptimisedAnalysis.run ⟨ps⟩ discount_strategies)) :=
  ⟨(claim_C7_checkout_validation ['A', '1']).1 ⟨'1', by decide, by decide⟩,
   (claim_C7_checkout_validation ['A']).2 (by decide)⟩

lemma freeMarkAux_length (sku : Char) (tq : ℤ) :
    ∀ (ps : List Item) (c : ℤ), (freeMarkAux sku tq c ps).length = ps.length := by
  intro ps
  induction ps with
  | nil => intro c; rfl
  | cons p ps ih =>
    intro c
    simp only [freeMarkAux]
    split
    · split <;> simp [ih]
    · simp [ih]

lemma freeMarkAux_getD (sku : Char) (tq : ℤ) :
    ∀ (ps : List Item) (c : ℤ), c < tq → ∀ i, i < ps.length →
      (freeMarkAux sku tq c ps).getD i item0 =
        if skuMatch sku (ps.getD i item0) = true ∧
            c + (((ps.take i).countP (skuMatch sku) : ℕ) : ℤ) < tq then
          { ps.getD i item0 with discounted := true }
        else ps.getD i item0 := by
  intro ps
  induction ps with
  | nil => intro c _ i hi; simp at hi
  | cons p ps ih =>
    intro c hc i hi
    by_cases hm : skuMatch sku p = true
    · by_cases hbrk : c + 1 = tq
      · simp only [freeMarkAux, if_pos hm, if_pos hbrk]
        match i with
        | 0 =>
          simp only [List.getD_cons_zero, List.take_zero, List.countP_nil,
            Nat.cast_zero, add_zero]
          rw [if_pos ⟨hm, hc⟩]
        | Nat.succ i =>
          simp only [List.getD_cons_succ, List.take_succ_cons, List.countP_cons,
            if_pos hm]
          rw [if_neg]
          rintro ⟨-, h2⟩
          push_cast at h2
          omega
      · simp only [freeMarkAux, if_pos hm, if_neg hbrk]
        match i with
        | 0 =>
          simp only [List.getD_cons_zero, List.take_zero, List.countP_nil,
            Nat.cast_zero, add_zero]
          rw [if_pos ⟨hm, hc⟩]
        | Nat.succ i =>
          have hi' : i < ps.length := by simpa using hi
          simp only [List.getD_cons_succ, List.take_succ_cons, List.countP_cons,
            if_pos hm]
          rw [ih (c + 1) (by omega) i hi']
          refine if_congr (and_congr_right fun _ => ?_) rfl rfl
          push_cast
          omega
    · simp only [freeMarkAux, if_neg hm]
      match i with
      | 0 =>
        simp only [List.getD_cons_zero, List.take_zero, List.countP_nil,
          Nat.cast_zero, add_zero]
        rw [if_neg fun hh => hm hh.1]
      | Nat.succ i =>
        have hi' : i < ps.length := by simpa using hi
        simp only [List.getD_cons_succ, List.take_succ_cons, List.countP_cons,
          if_neg hm, add_zero]
        exact ih c hc i hi'

lemma freeMarkAux_countP (sku : Char) (tq : ℤ) :
    ∀ (ps : List Item) (c : ℤ), c < tq →
      tq - c ≤ (ps.countP (skuMatch sku) : ℤ) →
      (freeMarkAux sku tq c ps).countP (skuMatch sku) =
        ps.countP (skuMatch sku) - (tq - c).toNat := by
  intro ps
  induction ps with
  | nil => intro c hc h; simp only [List.countP_nil] at h ⊢; omega
  | cons p ps ih =>
    intro c hc h
    simp only [List.countP_cons] at h ⊢
    by_cases hm : skuMatch sku p = true
    · rw [if_pos hm] at h ⊢
      by_cases hbrk : c + 1 = tq
      · simp only [freeMarkAux, if_pos hm, if_pos hbrk, List.countP_cons,
          skuMatch_flag_false]
        simp only [if_neg (by simp : ¬(false = true))]
        omega
      · simp only [freeMarkAux, if_pos hm, if_neg hbrk, List.countP_cons,
          skuMatch_flag_false]
        simp only [if_neg (by simp : ¬(false = true))]
        rw [ih (c + 1) (by omega) (by push_cast at h ⊢; omega)]
        push_cast at h
        omega
    · rw [if_neg hm] at h ⊢
      simp only [freeMarkAux, if_neg hm, List.countP_cons, if_neg hm]
      rw [ih c hc (by omega)]
      omega

lemma grantFree_none_iff (sku : Char) :
    ∀ ps : List Item, grantFree sku ps = none ↔
      ∀ p ∈ ps, ¬ skuMatch sku p = true := by
  intro ps
  induction ps with
  | nil => simp [grantFree]
  | cons p ps ih =>
    simp only [grantFree]
    by_cases hm : skuMatch sku p = true
    · rw [if_pos hm]
      simp [hm]
    · rw [if_neg hm]
      rw [Option.map_eq_none']
      constructor
      · intro hn q hq
        rcases List.mem_cons.mp hq with rfl | hq'
        · exact hm
        · exact (ih.1 hn) q hq'
      · intro hall
        exact ih.2 fun q hq => hall q (List.mem_cons_of_mem p hq)

lemma grantFree_some_spec (sku : Char) :
    ∀ (ps qs : List Item), grantFree sku ps = some qs →
      ∃ j, j < ps.length ∧
        skuMatch sku (ps.getD j item0) = true ∧
        (∀ k, k < j → ¬ skuMatch sku (ps.getD k item0) = true) ∧
        qs = ps.set j
          { ps.getD j item0 with discounted_price := 0, discounted := true } := by
  intro ps
  induction ps with
  | nil => intro qs h; exact absurd h (by simp [grantFree])
  | cons p ps ih =>
    intro qs h
    by_cases hm : skuMatch sku p = true
    · rw [grantFree, if_pos hm] at h
      refine ⟨0, by simp, by simpa using hm, fun k hk => absurd hk (by omega), ?_⟩
      simpa using (Option.some_injective _ h).symm
    · rw [grantFree, if_neg hm] at h
      rcases Option.map_eq_some'.mp h with ⟨qs', hqs', rfl⟩
      rcases ih qs' hqs' with ⟨j, hj, hmj, hleast, rfl⟩
      refine ⟨j + 1, by simpa using hj, by simpa using hmj, ?_, ?_⟩
      · intro k hk
        match k with
        | 0 => simpa using hm
        | Nat.succ k => simpa using hleast k (by omega)
      · simp only [List.getD_cons_succ, List.set_cons_succ]

lemma grantFree_countP_le (sku : Char) (pred : Item → Bool)
    (hpred : ∀ p : Item,
      pred { p with discounted_price := 0, discounted := true } = false) :
    ∀ (ps qs : List Item), grantFree sku ps = some qs →
      qs.countP pred ≤ ps.countP pred := by
  intro ps
  induction ps with
  | nil => intro qs h; exact absurd h (by simp [grantFree])
  | cons p ps ih =>
    intro qs h
    by_cases hm : skuMatch sku p = true
    · rw [grantFree, if_pos hm] at h
      rw [← Option.some_injective _ h]
      simp only [List.countP_cons, hpred]
      simp only [if_neg (by simp : ¬(false = true))]
      split <;> omega
    · rw [grantFree, if_neg hm] at h
      rcases Option.map_eq_some'.mp h with ⟨qs', hqs', rfl⟩
      simp only [List.countP_cons]
      have := ih qs' hqs'
      omega

/-- C3: when the free-item rule is applicable (and its trigger quantity is
at least 1), one call to `apply_discount` produces an intermediate list
`ps1` in which exactly the first `trigger_quantity` non-discounted
trigger-SKU entries have been flagged discounted with their price
unchanged; only then is the free unit granted against `ps1`: the first
entry of the free item's SKU still non-discounted in `ps1` gets price 0 and
the flag, and if no such entry remains, a fresh free-item entry with
price 0, already discounted, is appended.  Because the grant lookup runs on
`ps1`, the ordering also holds when the trigger SKU equals the free SKU. -/
theorem claim_C3_free_apply_spec (item : Item) (tq : ℤ) (ditem : Item)
    (b : Basket) (htq : 1 ≤ tq)
    (happ : FreeItemDiscount.is_applicable item tq b) :
    ∃ ps1 : List Item,
      ps1.length = b.products.length ∧
      (∀ i, i < b.products.length →
        ps1.getD i item0 =
          if skuMatch item.sku (b.products.getD i item0) = true ∧
              (((b.products.take i).countP (skuMatch item.sku) : ℕ) : ℤ) < tq then
            { b.products.getD i item0 with discounted := true }
          else b.products.getD i item0) ∧
      ps1.countP (skuMatch item.sku) =
        b.products.countP (skuMatch item.sku) - tq.toNat ∧
      ((∃ j, j < ps1.length ∧
          skuMatch ditem.sku (ps1.getD j item0) = true ∧
          (∀ k, k < j → ¬ skuMatch ditem.sku (ps1.getD k item0) = true) ∧
          (FreeItemDiscount.apply_discount item tq ditem b).products =
            ps1.set j
              { ps1.getD j item0 with discounted_price := 0, discounted := true }) ∨
        ((∀ p ∈ ps1, ¬ skuMatch ditem.sku p = true) ∧
          (FreeItemDiscount.apply_discount item tq ditem b).products =
            ps1 ++ [{ ditem with discounted_price := 0, discounted := true }])) := by
  refine ⟨freeMarkAux item.sku tq 0 b.products, freeMarkAux_length _ _ _ _,
    fun i hi => ?_, ?_, ?_⟩
  · rw [freeMarkAux_getD item.sku tq b.products 0 (by omega) i hi]
    exact if_congr (and_congr_right fun _ => by omega) rfl rfl
  · have hc := freeMarkAux_countP item.sku tq b.products 0 (by omega) (by
      have : tq ≤ (b.products.countP (skuMatch item.sku) : ℤ) := happ
      omega)
    simpa using hc
  · unfold FreeItemDiscount.apply_discount
    rw [if_pos happ]
    cases hg : grantFree ditem.sku (freeMarkAux item.sku tq 0 b.products) with
    | some qs =>
      left
      rcases grantFree_some_spec ditem.sku _ qs hg with ⟨j, hj, hmj, hleast, rfl⟩
      exact ⟨j, hj, hmj, hleast, rfl⟩
    | none =>
      right
      exact ⟨(grantFree_none_iff ditem.sku _).1 hg, rfl⟩

/-- Witness for C3: the rule (E, 2, free B) on the basket E E B. -/
theorem claim_C3_free_apply_spec_witness :
    ∃ ps1 : List Item,
      ps1.length = 3 ∧
      (∀ i, i < ([mkItem 'E' 40, mkItem 'E' 40, mkItem 'B' 30] : List Item).length →
        ps1.getD i item0 =
          if skuMatch (catalogItem 'E').sku
                (([mkItem 'E' 40, mkItem 'E' 40, mkItem 'B' 30] : List Item).getD i item0) =
              true ∧
              (((([mkItem 'E' 40, mkItem 'E' 40, mkItem 'B' 30] : List Item).take
                    i).countP (skuMatch (catalogItem 'E').sku) : ℕ) : ℤ) < 2 then
            { ([mkItem 'E' 40, mkItem 'E' 40, mkItem 'B' 30] :
                List Item).getD i item0 with discounted := true }
          else ([mkItem 'E' 40, mkItem 'E' 40, mkItem 'B' 30] :
            List Item).getD i item0) ∧
      ps1.countP (skuMatch (catalogItem 'E').sku) =
        ([mkItem 'E' 40, mkItem 'E' 40, mkItem 'B' 30] : List Item).countP
            (skuMatch (catalogItem 'E').sku) - (2 : ℤ).toNat ∧
      ((∃ j, j < ps1.length ∧
          skuMatch (catalogItem 'B').sku (ps1.getD j item0) = true ∧
          (∀ k, k < j → ¬ skuMatch (catalogItem 'B').sku (ps1.getD k item0) = true) ∧
          (FreeItemDiscount.apply_discount (catalogItem 'E') 2 (catalogItem 'B')
              ⟨[mkItem 'E' 40, mkItem 'E' 40, mkItem 'B' 30]⟩).products =
            ps1.set j
              { ps1.getD j item0 with discounted_price := 0, discounted := true }) ∨
        ((∀ p ∈ ps1, ¬ skuMatch (catalogItem 'B').sku p = true) ∧
          (FreeItemDiscount.apply_discount (catalogItem 'E') 2 (catalogItem 'B')
              ⟨[mkItem 'E' 40, mkItem 'E' 40, mkItem 'B' 30]⟩).products =
            ps1 ++
              [{ (catalogItem 'B') with
                  discounted_price := 0, discounted := true }])) :=
  claim_C3_free_apply_spec (catalogItem 'E') 2 (catalogItem 'B')
    ⟨[mkItem 'E' 40, mkItem 'E' 40, mkItem 'B' 30]⟩ (by decide) (by decide)

instance : IsTotal (ℕ × Item) comboLex where
  total a b := by
    unfold comboLex
    rcases lt_trichotomy a.2.price b.2.price with h | h | h
    · exact Or.inr (Or.inl h)
    · rcases le_total a.1 b.1 with h1 | h1
      · exact Or.inl (Or.inr ⟨h, h1⟩)
      · exact Or.inr (Or.inr ⟨h.symm, h1⟩)
    · exact Or.inl (Or.inl h)

instance : IsTrans (ℕ × Item) comboLex where
  trans a b c hab hbc := by
    unfold comboLex at hab hbc ⊢
    rcases hab with h1 | ⟨heq1, hle1⟩ <;> rcases hbc with h2 | ⟨heq2, hle2⟩
    · exact Or.inl (lt_trans h2 h1)
    · exact Or.inl (heq2 ▸ h1)
    · exact Or.inl (heq1.symm ▸ h2)
    · exact Or.inr ⟨heq1.trans heq2, le_trans hle1 hle2⟩

lemma anyMatch_mark_false (letters : List Char) (p : Item) (np : ℚ) :
    anyMatch letters { p with discounted_price := np, discounted := true } = false := by
  simp [anyMatch]

lemma discounted_false_of_anyMatch {letters : List Char} {p : Item}
    (h : anyMatch letters p = true) : p.discounted = false := by
  have : letters.contains p.sku = true ∧ p.discounted = false := by
    simpa [anyMatch] using h
  exact this.2

lemma comboClaimed_pair (items : List Item) (tq : ℤ) (ps : List Item) {i : ℕ}
    (hi : i ∈ comboClaimed items tq ps) :
    i < ps.length ∧
    anyMatch (items.map Item.sku) (ps.getD i item0) = true ∧
    (i, ps.getD i item0) ∈ (List.insertionSort comboLex
        (ps.enum.filter (fun ip => anyMatch (items.map Item.sku) ip.2))).take
      tq.toNat := by
  unfold comboClaimed at hi
  rcases List.mem_map.mp hi with ⟨pair, hpair, rfl⟩
  have h1 : pair ∈ List.insertionSort comboLex
      (ps.enum.filter (fun ip => anyMatch (items.map Item.sku) ip.2)) :=
    List.mem_of_mem_take hpair
  have h2 : pair ∈ ps.enum.filter (fun ip => anyMatch (items.map Item.sku) ip.2) :=
    (List.perm_insertionSort comboLex _).mem_iff.mp h1
  have h3 := List.mem_filter.mp h2
  rcases List.getElem_of_mem h3.1 with ⟨n, hn, hEq⟩
  rw [List.getElem_enum] at hEq
  have hlen : n < ps.length := by
    have := hn
    rwa [List.enum_length] at this
  have hp : pair = (n, ps.getD n item0) := by
    rw [← hEq, List.getD_eq_getElem ps item0 hlen]
  subst hp
  exact ⟨hlen, h3.2, hpair⟩

lemma pair_mem_sort (items : List Item) (ps : List Item) {j : ℕ}
    (hj : j < ps.length)
    (hjm : anyMatch (items.map Item.sku) (ps.getD j item0) = true) :
    (j, ps.getD j item0) ∈ List.insertionSort comboLex
      (ps.enum.filter (fun ip => anyMatch (items.map Item.sku) ip.2)) := by
  apply (List.perm_insertionSort comboLex _).mem_iff.mpr
  apply List.mem_filter.mpr
  refine ⟨?_, hjm⟩
  have hj' : j < ps.enum.length := by rwa [List.enum_length]
  have hmem := List.getElem_mem hj'
  rwa [List.getElem_enum, ← List.getD_eq_getElem ps item0 hj] at hmem

lemma comboClaimed_nodup (items : List Item) (tq : ℤ) (ps : List Item) :
    (comboClaimed items tq ps).Nodup := by
  unfold comboClaimed
  rw [List.map_take]
  have hperm := (List.perm_insertionSort comboLex
    (ps.enum.filter (fun ip => anyMatch (items.map Item.sku) ip.2))).map Prod.fst
  have hnodupA : ((ps.enum.filter
      (fun ip => anyMatch (items.map Item.sku) ip.2)).map Prod.fst).Nodup := by
    have hsub : (ps.enum.filter
        (fun ip => anyMatch (items.map Item.sku) ip.2)).Sublist ps.enum :=
      List.filter_sublist _
    have hrange : (ps.enum.map Prod.fst).Nodup := by
      rw [List.enum_map_fst]; exact List.nodup_range _
    exact List.Nodup.sublist (hsub.map Prod.fst) hrange
  exact List.Nodup.sublist (List.take_sublist _ _) (hperm.nodup_iff.mpr hnodupA)

lemma comboClaimed_length (items : List Item) (tq : ℤ) (ps : List Item)
    (happ : tq ≤ (ps.countP (anyMatch (items.map Item.sku)) : ℤ)) :
    (comboClaimed items tq ps).length = tq.toNat := by
  unfold comboClaimed
  rw [List.length_map, List.length_take]
  have hlenS : (List.insertionSort comboLex
      (ps.enum.filter (fun ip => anyMatch (items.map Item.sku) ip.2))).length =
      ps.countP (anyMatch (items.map Item.sku)) := by
    rw [(List.perm_insertionSort comboLex _).length_eq,
      ← List.countP_eq_length_filter]
    conv_rhs => rw [← List.enum_map_snd ps, List.countP_map]
    rfl
  rw [hlenS]
  exact min_eq_left (by omega)

lemma comboApply_products_length (items : List Item) (cp : ℚ) (tq : ℤ)
    (b : Basket) :
    (ComboDiscount.apply_discount items cp tq b).products.length =
      b.products.length := by
  unfold ComboDiscount.apply_discount
  split
  · simp [List.enum_length]
  · rfl

lemma comboApply_getD (items : List Item) (cp : ℚ) (tq : ℤ) (b : Basket)
    (happ : ComboDiscount.is_applicable items tq b) :
    ∀ i, i < b.products.length →
      (ComboDiscount.apply_discount items cp tq b).products.getD i item0 =
        if i ∈ comboClaimed items tq b.products then
          { b.products.getD i item0 with
              discounted_price := cp / (tq : ℚ), discounted := true }
        else b.products.getD i item0 := by
  intro i hi
  unfold ComboDiscount.apply_discount
  rw [if_pos happ]
  have hlen : i < (b.products.enum.map (fun ip =>
      if ip.1 ∈ comboClaimed items tq b.products then
        { ip.2 with discounted_price := cp / (tq : ℚ), discounted := true }
      else ip.2)).length := by
    simpa [List.enum_length] using hi
  rw [List.getD_eq_getElem _ item0 hlen]
  simp only [List.getElem_map, List.getElem_enum]
  rw [List.getD_eq_getElem b.products item0 hi]

lemma comboClaimed_max (items : List Item) (tq : ℤ) (ps : List Item) {i j : ℕ}
    (hi : i ∈ comboClaimed items tq ps) (hj : j < ps.length)
    (hjm : anyMatch (items.map Item.sku) (ps.getD j item0) = true)
    (hjK : j ∉ comboClaimed items tq ps) :
    (ps.getD j item0).price < (ps.getD i item0).price ∨
      ((ps.getD j item0).price = (ps.getD i item0).price ∧ i < j) := by
  obtain ⟨hilen, him, hitake⟩ := comboClaimed_pair items tq ps hi
  have hjS := pair_mem_sort items ps hj hjm
  rw [← List.take_append_drop tq.toNat (List.insertionSort comboLex
    (ps.enum.filter (fun ip => anyMatch (items.map Item.sku) ip.2)))] at hjS
  rcases List.mem_append.mp hjS with htk | hdr
  · exact absurd (List.mem_map.mpr ⟨_, htk, rfl⟩) hjK
  · have hsorted : List.Pairwise comboLex (List.insertionSort comboLex
        (ps.enum.filter (fun ip => anyMatch (items.map Item.sku) ip.2))) :=
      List.sorted_insertionSort comboLex _
    rw [← List.take_append_drop tq.toNat (List.insertionSort comboLex
      (ps.enum.filter (fun ip => anyMatch (items.map Item.sku) ip.2)))] at hsorted
    have hpair := (List.pairwise_append.mp hsorted).2.2 _ hitake _ hdr
    unfold comboLex at hpair
    rcases hpair with h | ⟨heq, hle⟩
    · exact Or.inl h
    · right
      refine ⟨heq.symm, ?_⟩
      have hne : i ≠ j := fun hij => hjK (hij ▸ hi)
      simp only at hle
      omega

/-- C4: when the combo rule is applicable, one call to `apply_discount`
claims a duplicate-free set of exactly `trigger_quantity` basket positions,
all holding non-discounted entries whose SKU lies in the combo's item set;
each claimed entry's price becomes `combo_price / trigger_quantity` with
the discounted flag set, every other entry is untouched, and the claimed
positions are exactly the top of the stable descending order by original
unit price: any unclaimed eligible entry is strictly cheaper than each
claimed one, or has equal price but a strictly later basket position. -/
theorem claim_C4_combo_apply_spec (items : List Item) (cp : ℚ) (tq : ℤ)
    (b : Basket) (happ : ComboDiscount.is_applicable items tq b) :
    ∃ K : List ℕ,
      K.Nodup ∧
      K.length = tq.toNat ∧
      (∀ i ∈ K, i < b.products.length ∧
        anyMatch (items.map Item.sku) (b.products.getD i item0) = true) ∧
      (ComboDiscount.apply_discount items cp tq b).products.length =
        b.products.length ∧
      (∀ i, i < b.products.length →
        (ComboDiscount.apply_discount items cp tq b).products.getD i item0 =
          if i ∈ K then
            { b.products.getD i item0 with
                discounted_price := cp / (tq : ℚ), discounted := true }
          else b.products.getD i item0) ∧
      (∀ i ∈ K, ∀ j, j < b.products.length →
        anyMatch (items.map Item.sku) (b.products.getD j item0) = true →
        j ∉ K →
        (b.products.getD j item0).price < (b.products.getD i item0).price ∨
          ((b.products.getD j item0).price =
              (b.products.getD i item0).price ∧ i < j)) := by
  refine ⟨comboClaimed items tq b.products,
    comboClaimed_nodup items tq b.products,
    comboClaimed_length items tq b.products happ,
    fun i hi => ?_,
    comboApply_products_length items cp tq b,
    comboApply_getD items cp tq b happ,
    fun i hi j hj hjm hjK => comboClaimed_max items tq b.products hi hj hjm hjK⟩
  obtain ⟨h1, h2, -⟩ := comboClaimed_pair items tq b.products hi
  exact ⟨h1, h2⟩

/-- Witness for C4: the S T X Y Z combo (3 for 45) on the basket Z S T Y. -/
theorem claim_C4_combo_apply_spec_witness :
    ∃ K : List ℕ,
      K.Nodup ∧
      K.length = (3 : ℤ).toNat ∧
      (∀ i ∈ K, i < (Basket.mk [mkItem 'Z' 21, mkItem 'S' 20, mkItem 'T' 20,
          mkItem 'Y' 20]).products.length ∧
        anyMatch (([catalogItem 'S', catalogItem 'T', catalogItem 'X',
            catalogItem 'Y', catalogItem 'Z']).map Item.sku)
          ((Basket.mk [mkItem 'Z' 21, mkItem 'S' 20, mkItem 'T' 20,
              mkItem 'Y' 20]).products.getD i item0) = true) ∧
      (ComboDiscount.apply_discount [catalogItem 'S', catalogItem 'T',
          catalogItem 'X', catalogItem 'Y', catalogItem 'Z'] 45 3
          (Basket.mk [mkItem 'Z' 21, mkItem 'S' 20, mkItem 'T' 20,
            mkItem 'Y' 20])).products.length =
        (Basket.mk [mkItem 'Z' 21, mkItem 'S' 20, mkItem 'T' 20,
          mkItem 'Y' 20]).products.length ∧
      (∀ i, i < (Basket.mk [mkItem 'Z' 21, mkItem 'S' 20, mkItem 'T' 20,
          mkItem 'Y' 20]).products.length →
        (ComboDiscount.apply_discount [catalogItem 'S', catalogItem 'T',
            catalogItem 'X', catalogItem 'Y', catalogItem 'Z'] 45 3
            (Basket.mk [mkItem 'Z' 21, mkItem 'S' 20, mkItem 'T' 20,
              mkItem 'Y' 20])).products.getD i item0 =
          if i ∈ K then
            { (Basket.mk [mkItem 'Z' 21, mkItem 'S' 20, mkItem 'T' 20,
                mkItem 'Y' 20]).products.getD i item0 with
                discounted_price := 45 / ((3 : ℤ) : ℚ), discounted := true }
          else (Basket.mk [mkItem 'Z' 21, mkItem 'S' 20, mkItem 'T' 20,
            mkItem 'Y' 20]).products.getD i item0) ∧
      (∀ i ∈ K, ∀ j, j < (Basket.mk [mkItem 'Z' 21, mkItem 'S' 20,
          mkItem 'T' 20, mkItem 'Y' 20]).products.length →
        anyMatch (([catalogItem 'S', catalogItem 'T', catalogItem 'X',
            catalogItem 'Y', catalogItem 'Z']).map Item.sku)
          ((Basket.mk [mkItem 'Z' 21, mkItem 'S' 20, mkItem 'T' 20,
              mkItem 'Y' 20]).products.getD j item0) = true →
        j ∉ K →
        ((Basket.mk [mkItem 'Z' 21, mkItem 'S' 20, mkItem 'T' 20,
            mkItem 'Y' 20]).products.getD j item0).price <
            ((Basket.mk [mkItem 'Z' 21, mkItem 'S' 20, mkItem 'T' 20,
              mkItem 'Y' 20]).products.getD i item0).price ∨
          (((Basket.mk [mkItem 'Z' 21, mkItem 'S' 20, mkItem 'T' 20,
              mkItem 'Y' 20]).products.getD j item0).price =
              ((Basket.mk [mkItem 'Z' 21, mkItem 'S' 20, mkItem 'T' 20,
                mkItem 'Y' 20]).products.getD i item0).price ∧ i < j)) :=
  claim_C4_combo_apply_spec
    [catalogItem 'S', catalogItem 'T', catalogItem 'X', catalogItem 'Y',
      catalogItem 'Z'] 45 3
    (Basket.mk [mkItem 'Z' 21, mkItem 'S' 20, mkItem 'T' 20, mkItem 'Y' 20])
    (by decide)

lemma freeMarkAux_weak (sku : Char) (tq : ℤ) :
    ∀ (ps : List Item) (c : ℤ) (i : ℕ), i < ps.length →
      (freeMarkAux sku tq c ps).getD i item0 = ps.getD i item0 ∨
      ((ps.getD i item0).discounted = false ∧
        (freeMarkAux sku tq c ps).getD i item0 =
          { ps.getD i item0 with discounted := true }) := by
  intro ps
  induction ps with
  | nil => intro c i hi; simp at hi
  | cons p ps ih =>
    intro c i hi
    by_cases hm : skuMatch sku p = true
    · by_cases hbrk : c + 1 = tq
      · simp only [freeMarkAux, if_pos hm, if_pos hbrk]
        match i with
        | 0 =>
          right
          exact ⟨discounted_false_of_skuMatch hm, by
            simp only [List.getD_cons_zero]⟩
        | Nat.succ i =>
          left
          simp only [List.getD_cons_succ]
      · simp only [freeMarkAux, if_pos hm, if_neg hbrk]
        match i with
        | 0 =>
          right
          exact ⟨discounted_false_of_skuMatch hm, by
            simp only [List.getD_cons_zero]⟩
        | Nat.succ i =>
          have hi' : i < ps.length := by simpa using hi
          simp only [List.getD_cons_succ]
          exact ih (c + 1) i hi'
    · simp only [freeMarkAux, if_neg hm]
      match i with
      | 0 => left; simp only [List.getD_cons_zero]
      | Nat.succ i =>
        have hi' : i < ps.length := by simpa using hi
        simp only [List.getD_cons_succ]
        exact ih c i hi'

lemma getD_set_item (l : List Item) (j : ℕ) (v : Item) (i : ℕ)
    (hi : i < l.length) :
    (l.set j v).getD i item0 = if j = i then v else l.getD i item0 := by
  rw [List.getD_eq_getElem _ item0 (by rwa [List.length_set]),
    List.getElem_set]
  split
  · rfl
  · rw [List.getD_eq_getElem l item0 hi]

lemma getD_append_left_item (l l' : List Item) (i : ℕ) (hi : i < l.length) :
    (l ++ l').getD i item0 = l.getD i item0 := by
  rw [List.getD_eq_getElem _ item0 (by rw [List.length_append]; omega),
    List.getElem_append_left hi, List.getD_eq_getElem l item0 hi]

/-- C5: for every rule variant and every basket position, one application
never shrinks the basket; an entry that is already discounted is returned
bit-for-bit unchanged; and any entry the application does change was
non-discounted before and carries the discounted flag afterwards (so the
flag only ever moves from false to true, and each entry is touched by at
most one rule application over any run). -/
theorem claim_C5_monotone_claim (d : DiscountStrategy) (b : Basket) (i : ℕ)
    (hi : i < b.products.length) :
    b.products.length ≤ (d.apply_discount b).products.length ∧
    ((b.products.getD i item0).discounted = true →
      (d.apply_discount b).products.getD i item0 = b.products.getD i item0) ∧
    ((d.apply_discount b).products.getD i item0 = b.products.getD i item0 ∨
      ((b.products.getD i item0).discounted = false ∧
        ((d.apply_discount b).products.getD i item0).discounted = true)) := by
  have key : b.products.length ≤ (d.apply_discount b).products.length ∧
      ((d.apply_discount b).products.getD i item0 = b.products.getD i item0 ∨
        ((b.products.getD i item0).discounted = false ∧
          ((d.apply_discount b).products.getD i item0).discounted = true)) := by
    cases d with
    | BulkDiscount item tq bp =>
      simp only [DiscountStrategy.apply_discount]
      unfold BulkDiscount.apply_discount
      by_cases happ : BulkDiscount.is_applicable item tq b
      · rw [if_pos happ]
        refine ⟨le_of_eq (bulkMarkAux_length _ _ _ _ _).symm, ?_⟩
        rw [bulkMarkAux_getD item.sku (bp / (tq : ℚ)) tq b.products 0 i hi]
        split
        · next h => exact Or.inr ⟨discounted_false_of_skuMatch h.1, rfl⟩
        · exact Or.inl rfl
      · rw [if_neg happ]
        exact ⟨le_refl _, Or.inl rfl⟩
    | FreeItemDiscount item tq ditem =>
      simp only [DiscountStrategy.apply_discount]
      unfold FreeItemDiscount.apply_discount
      by_cases happ : FreeItemDiscount.is_applicable item tq b
      · rw [if_pos happ]
        have hlen1 : (freeMarkAux item.sku tq 0 b.products).length =
            b.products.length := freeMarkAux_length _ _ _ _
        have hw1 := freeMarkAux_weak item.sku tq b.products 0 i hi
        cases hg : grantFree ditem.sku (freeMarkAux item.sku tq 0 b.products) with
        | some qs =>
          obtain ⟨j, hj, hmj, hleast, rfl⟩ :=
            grantFree_some_spec ditem.sku _ qs hg
          refine ⟨by simp only [List.length_set]; omega, ?_⟩
          rw [getD_set_item _ j _ i (by omega)]
          by_cases hji : j = i
          · subst hji
            rcases hw1 with hw | ⟨hfalse, hflag⟩
            · rw [if_pos rfl, hw]
              exact Or.inr ⟨discounted_false_of_skuMatch (hw ▸ hmj), rfl⟩
            · exfalso
              have := discounted_false_of_skuMatch hmj
              rw [hflag] at this
              simp at this
          · rw [if_neg hji]
            exact hw1.imp id (fun h => ⟨h.1, by rw [h.2]⟩)
        | none =>
          refine ⟨by rw [List.length_append, hlen1]; omega, ?_⟩
          rw [getD_append_left_item _ _ i (by omega)]
          exact hw1.imp id (fun h => ⟨h.1, by rw [h.2]⟩)
      · rw [if_neg happ]
        exact ⟨le_refl _, Or.inl rfl⟩
    | ComboDiscount items cp tq =>
      simp only [DiscountStrategy.apply_discount]
      by_cases happ : ComboDiscount.is_applicable items tq b
      · refine ⟨le_of_eq (comboApply_products_length items cp tq b).symm, ?_⟩
        rw [comboApply_getD items cp tq b happ i hi]
        split
        · next h =>
          obtain ⟨-, hm, -⟩ := comboClaimed_pair items tq b.products h
          exact Or.inr ⟨discounted_false_of_anyMatch hm, rfl⟩
        · exact Or.inl rfl
      · have hnoop : ComboDiscount.apply_discount items cp tq b = b := by
          unfold ComboDiscount.apply_discount
          rw [if_neg happ]
        rw [hnoop]
        exact ⟨le_refl _, Or.inl rfl⟩
  refine ⟨key.1, ?_, key.2⟩
  intro hdisc
  rcases key.2 with h | ⟨hfalse, -⟩
  · exact h
  · rw [hdisc] at hfalse
    exact absurd hfalse (by simp)

/-- Witness for C5: the bulk rule (A, 3, 130) on the one-entry basket A at
position 0. -/
theorem claim_C5_monotone_claim_witness :
    (Basket.mk [mkItem 'A' 50]).products.length ≤
      ((DiscountStrategy.BulkDiscount (catalogItem 'A') 3 130).apply_discount
        ⟨[mkItem 'A' 50]⟩).products.length ∧
    (((Basket.mk [mkItem 'A' 50]).products.getD 0 item0).discounted = true →
      ((DiscountStrategy.BulkDiscount (catalogItem 'A') 3 130).apply_discount
          ⟨[mkItem 'A' 50]⟩).products.getD 0 item0 =
        (Basket.mk [mkItem 'A' 50]).products.getD 0 item0) ∧
    (((DiscountStrategy.BulkDiscount (catalogItem 'A') 3 130).apply_discount
          ⟨[mkItem 'A' 50]⟩).products.getD 0 item0 =
        (Basket.mk [mkItem 'A' 50]).products.getD 0 item0 ∨
      (((Basket.mk [mkItem 'A' 50]).products.getD 0 item0).discounted = false ∧
        (((DiscountStrategy.BulkDiscount (catalogItem 'A') 3
            130).apply_discount
            ⟨[mkItem 'A' 50]⟩).products.getD 0 item0).discounted = true)) :=
  claim_C5_monotone_claim (DiscountStrategy.BulkDiscount (catalogItem 'A') 3 130)
    ⟨[mkItem 'A' 50]⟩ 0 (by decide)

lemma skuMatch_zero_false (sku : Char) (p : Item) :
    skuMatch sku { p with discounted_price := 0, discounted := true } = false := by
  simp [skuMatch]

lemma countP_split {α : Type} (l : List α) (q r : α → Bool) :
    l.countP q =
      l.countP (fun a => r a && q a) + l.countP (fun a => !r a && q a) := by
  induction l with
  | nil => simp
  | cons a l ih =>
    simp only [List.countP_cons, ih]
    cases hr : r a <;> cases hq : q a <;> simp [hr, hq] <;> omega

lemma countP_range_eq_one {k n : ℕ} (hk : k < n) :
    (List.range n).countP (fun i => i == k) = 1 := by
  induction n with
  | zero => omega
  | succ n ih =>
    rw [List.range_succ, List.countP_append]
    by_cases h : k < n
    · rw [ih h]
      have hn : ¬ (n == k) = true := by simp; omega
      simp [List.countP_cons, hn]
    · have hkn : k = n := by omega
      subst hkn
      have h0 : (List.range k).countP (fun i => i == k) = 0 := by
        rw [List.countP_eq_zero]
        intro a ha
        simp only [List.mem_range] at ha
        simp
        omega
      simp [h0, List.countP_cons]

lemma countP_range_mem (K : List ℕ) (n : ℕ) (hnd : K.Nodup)
    (hlt : ∀ i ∈ K, i < n) :
    (List.range n).countP (fun i => decide (i ∈ K)) = K.length := by
  induction K with
  | nil => simp
  | cons k K ih =>
    obtain ⟨hk, hnd'⟩ := List.nodup_cons.mp hnd
    rw [countP_split (List.range n) _ (fun i => i == k)]
    have h1 : (List.range n).countP
        (fun i => (i == k) && decide (i ∈ k :: K)) =
        (List.range n).countP (fun i => i == k) := by
      apply List.countP_congr
      intro x _
      by_cases hxk : x = k
      · subst hxk; simp
      · simp [hxk]
    have h2 : (List.range n).countP
        (fun i => !(i == k) && decide (i ∈ k :: K)) =
        (List.range n).countP (fun i => decide (i ∈ K)) := by
      apply List.countP_congr
      intro x _
      by_cases hxk : x = k
      · subst hxk; simp [hk]
      · simp [hxk, List.mem_cons]
    rw [h1, h2, countP_range_eq_one (hlt k (List.mem_cons_self k K)),
      ih hnd' (fun i hi => hlt i (List.mem_cons_of_mem k hi))]
    simp [List.length_cons]
    omega

lemma comboApply_countP (items : List Item) (cp : ℚ) (tq : ℤ) (b : Basket)
    (happ : ComboDiscount.is_applicable items tq b) :
    (ComboDiscount.apply_discount items cp tq b).products.countP
        (anyMatch (items.map Item.sku)) =
      b.products.countP (anyMatch (items.map Item.sku)) - tq.toNat := by
  unfold ComboDiscount.apply_discount
  rw [if_pos happ]
  show (b.products.enum.map (fun ip =>
      if ip.1 ∈ comboClaimed items tq b.products then
        { ip.2 with discounted_price := cp / (tq : ℚ), discounted := true }
      else ip.2)).countP (anyMatch (items.map Item.sku)) = _
  rw [List.countP_map]
  have hcongr : (b.products.enum).countP
      ((anyMatch (items.map Item.sku)) ∘ (fun ip =>
        if ip.1 ∈ comboClaimed items tq b.products then
          { ip.2 with discounted_price := cp / (tq : ℚ), discounted := true }
        else ip.2)) =
      (b.products.enum).countP (fun ip =>
        !(decide (ip.1 ∈ comboClaimed items tq b.products)) &&
          anyMatch (items.map Item.sku) ip.2) := by
    apply List.countP_congr
    intro ip _
    by_cases hk : ip.1 ∈ comboClaimed items tq b.products
    · simp [Function.comp, hk, anyMatch_mark_false]
    · simp [Function.comp, hk]
  rw [hcongr]
  have hsplit := countP_split (b.products.enum)
    (fun ip => anyMatch (items.map Item.sku) ip.2)
    (fun ip => decide (ip.1 ∈ comboClaimed items tq b.products))
  have htot : (b.products.enum).countP (fun ip =>
      anyMatch (items.map Item.sku) ip.2) =
      b.products.countP (anyMatch (items.map Item.sku)) := by
    conv_rhs => rw [← List.enum_map_snd b.products, List.countP_map]
    rfl
  have hstep : (b.products.enum).countP (fun ip =>
      decide (ip.1 ∈ comboClaimed items tq b.products) &&
        anyMatch (items.map Item.sku) ip.2) =
      (b.products.enum).countP (fun ip =>
        decide (ip.1 ∈ comboClaimed items tq b.products)) := by
    apply List.countP_congr
    intro ip hip
    by_cases hk : ip.1 ∈ comboClaimed items tq b.products
    · rcases List.getElem_of_mem hip with ⟨n, hn, hEq⟩
      rw [List.getElem_enum] at hEq
      have hlen : n < b.products.length := by rwa [List.enum_length] at hn
      have hp : ip = (n, b.products.getD n item0) := by
        rw [← hEq, List.getD_eq_getElem b.products item0 hlen]
      subst hp
      have hk' : n ∈ comboClaimed items tq b.products := hk
      obtain ⟨-, hm, -⟩ := comboClaimed_pair items tq b.products hk'
      constructor
      · intro hb
        simp only [Bool.and_eq_true] at hb
        exact hb.1
      · intro hb
        simp only [Bool.and_eq_true]
        exact ⟨hb, hm⟩
    · simp [hk]
  have hfst : (b.products.enum).countP (fun ip =>
      decide (ip.1 ∈ comboClaimed items tq b.products)) =
      (comboClaimed items tq b.products).length := by
    have hmap : (b.products.enum).countP (fun ip =>
        decide (ip.1 ∈ comboClaimed items tq b.products)) =
        ((b.products.enum).map Prod.fst).countP
          (fun n => decide (n ∈ comboClaimed items tq b.products)) := by
      rw [List.countP_map]
      rfl
    rw [hmap, List.enum_map_fst]
    exact countP_range_mem _ _ (comboClaimed_nodup items tq b.products)
      (fun i hi => (comboClaimed_pair items tq b.products hi).1)
  have hlenK := comboClaimed_length items tq b.products happ
  omega

lemma apply_decreases (d : DiscountStrategy) (b : Basket)
    (htq : 1 ≤ d.trigger_quantity) (happ : d.is_applicable b) :
    d.matchCount (d.apply_discount b) + d.trigger_quantity.toNat ≤
      d.matchCount b := by
  cases d with
  | BulkDiscount item tq bp =>
    have happb : BulkDiscount.is_applicable item tq b := happ
    have happ' : tq ≤ (b.products.countP (skuMatch item.sku) : ℤ) := happ
    have htq' : (1 : ℤ) ≤ tq := htq
    show (BulkDiscount.apply_discount item tq bp b).products.countP
        (skuMatch item.sku) + tq.toNat ≤
      b.products.countP (skuMatch item.sku)
    unfold BulkDiscount.apply_discount
    rw [if_pos happb]
    show (bulkMarkAux item.sku (bp / (tq : ℚ)) tq 0 b.products).countP
        (skuMatch item.sku) + tq.toNat ≤ _
    rw [bulkMarkAux_countP item.sku (bp / (tq : ℚ)) tq b.products 0 (by omega)]
    omega
  | FreeItemDiscount item tq ditem =>
    have happb : FreeItemDiscount.is_applicable item tq b := happ
    have happ' : tq ≤ (b.products.countP (skuMatch item.sku) : ℤ) := happ
    have htq' : (1 : ℤ) ≤ tq := htq
    have hps1 : (freeMarkAux item.sku tq 0 b.products).countP
        (skuMatch item.sku) =
        b.products.countP (skuMatch item.sku) - tq.toNat := by
      have h := freeMarkAux_countP item.sku tq b.products 0 (by omega)
        (by omega)
      simpa using h
    show (FreeItemDiscount.apply_discount item tq ditem b).products.countP
        (skuMatch item.sku) + tq.toNat ≤
      b.products.countP (skuMatch item.sku)
    unfold FreeItemDiscount.apply_discount
    rw [if_pos happb]
    cases hg : grantFree ditem.sku (freeMarkAux item.sku tq 0 b.products) with
    | some qs =>
      simp only [hg]
      have hle := grantFree_countP_le ditem.sku (skuMatch item.sku)
        (fun p => skuMatch_zero_false item.sku p) _ qs hg
      omega
    | none =>
      simp only [hg]
      rw [List.countP_append]
      have hone : ([({ ditem with discounted_price := 0, discounted := true } :
          Item)]).countP (skuMatch item.sku) = 0 := by
        simp [List.countP_cons, skuMatch_zero_false]
      omega
  | ComboDiscount items cp tq =>
    have happc : ComboDiscount.is_applicable items tq b := happ
    have happ' : tq ≤ (b.products.countP (anyMatch (items.map Item.sku)) : ℤ) :=
      happ
    have htq' : (1 : ℤ) ≤ tq := htq
    show (ComboDiscount.apply_discount items cp tq b).products.countP
        (anyMatch (items.map Item.sku)) + tq.toNat ≤
      b.products.countP (anyMatch (items.map Item.sku))
    rw [comboApply_countP items cp tq b happc]
    omega

lemma not_applicable_of_matchCount_lt (r : DiscountStrategy) (b : Basket)
    (htq : 1 ≤ r.trigger_quantity) (h : r.matchCount b = 0) :
    ¬ r.is_applicable b := by
  intro happ
  have h' : r.trigger_quantity ≤ (r.matchCount b : ℤ) := happ
  omega

lemma matchCount_pos_of_applicable (r : DiscountStrategy) (b : Basket)
    (htq : 1 ≤ r.trigger_quantity) (happ : r.is_applicable b) :
    1 ≤ r.matchCount b := by
  have h' : r.trigger_quantity ≤ (r.matchCount b : ℤ) := happ
  omega

lemma whileAux_of_not_applicable (r : DiscountStrategy) (b : Basket)
    (h : ¬ r.is_applicable b) : ∀ f, whileAux r f b = b := by
  intro f
  cases f with
  | zero => rfl
  | succ f => simp only [whileAux, if_neg h]

lemma whileAux_congr (r : DiscountStrategy) (htq : 1 ≤ r.trigger_quantity) :
    ∀ (f1 f2 : ℕ) (b : Basket), r.matchCount b ≤ f1 → r.matchCount b ≤ f2 →
      whileAux r f1 b = whileAux r f2 b := by
  intro f1
  induction f1 with
  | zero =>
    intro f2 b h1 h2
    have hz : r.matchCount b = 0 := by omega
    have hna := not_applicable_of_matchCount_lt r b htq hz
    rw [whileAux_of_not_applicable r b hna f2]
    rfl
  | succ f1 ih =>
    intro f2 b h1 h2
    by_cases happ : r.is_applicable b
    · have hdec := apply_decreases r b htq happ
      have hc1 := matchCount_pos_of_applicable r b htq happ
      match f2 with
      | 0 => omega
      | f2 + 1 =>
        simp only [whileAux, if_pos happ]
        exact ih f2 (r.apply_discount b) (by omega) (by omega)
    · rw [whileAux_of_not_applicable r b happ, whileAux_of_not_applicable r b happ]

lemma whileApplicable_unfold (r : DiscountStrategy)
    (htq : 1 ≤ r.trigger_quantity) (b : Basket) :
    whileApplicable r b =
      if r.is_applicable b then whileApplicable r (r.apply_discount b)
      else b := by
  unfold whileApplicable
  by_cases happ : r.is_applicable b
  · rw [if_pos happ]
    have hc1 := matchCount_pos_of_applicable r b htq happ
    have hdec := apply_decreases r b htq happ
    obtain ⟨c, hc⟩ : ∃ c, r.matchCount b = c + 1 :=
      ⟨r.matchCount b - 1, by omega⟩
    rw [hc]
    simp only [whileAux, if_pos happ]
    exact whileAux_congr r htq c (r.matchCount (r.apply_discount b))
      (r.apply_discount b) (by omega) (le_refl _)
  · rw [if_neg happ, whileAux_of_not_applicable r b happ]

lemma whileAux_terminates (r : DiscountStrategy)
    (htq : 1 ≤ r.trigger_quantity) :
    ∀ (f : ℕ) (b : Basket), r.matchCount b ≤ f →
      ¬ r.is_applicable (whileAux r f b) := by
  intro f
  induction f with
  | zero =>
    intro b h
    exact not_applicable_of_matchCount_lt r b htq (by omega)
  | succ f ih =>
    intro b h
    by_cases happ : r.is_applicable b
    · simp only [whileAux, if_pos happ]
      have hdec := apply_decreases r b htq happ
      exact ih (r.apply_discount b) (by omega)
    · simp only [whileAux, if_neg happ]
      exact happ

lemma whileCntAux_bound (r : DiscountStrategy)
    (htq : 1 ≤ r.trigger_quantity) :
    ∀ (f : ℕ) (b : Basket), r.matchCount b ≤ f →
      whileCntAux r f b * r.trigger_quantity.toNat ≤ r.matchCount b := by
  intro f
  induction f with
  | zero => intro b h; simp [whileCntAux]
  | succ f ih =>
    intro b h
    by_cases happ : r.is_applicable b
    · simp only [whileCntAux, if_pos happ]
      have hdec := apply_decreases r b htq happ
      have hih := ih (r.apply_discount b) (by omega)
      have hexp : (whileCntAux r f (r.apply_discount b) + 1) *
          r.trigger_quantity.toNat =
          whileCntAux r f (r.apply_discount b) * r.trigger_quantity.toNat +
            r.trigger_quantity.toNat := by ring
      omega
    · simp only [whileCntAux, if_neg happ]
      omega

/-- C6: for a rule with a positive trigger quantity, every application on a
basket where the rule is applicable strictly decreases the number of
non-discounted entries matching that rule, the engine's while loop for the
rule runs at most `floor(matching_entry_count / trigger_quantity)` times,
and the loop's final basket no longer satisfies `is_applicable`. -/
theorem claim_C6_loop_termination (d : DiscountStrategy) (b : Basket)
    (htq : 1 ≤ d.trigger_quantity) :
    (d.is_applicable b → d.matchCount (d.apply_discount b) < d.matchCount b) ∧
    loopCount d b ≤ d.matchCount b / d.trigger_quantity.toNat ∧
    ¬ d.is_applicable (whileApplicable d b) := by
  refine ⟨fun happ => ?_, ?_, ?_⟩
  · have := apply_decreases d b htq happ
    omega
  · have hb := whileCntAux_bound d htq (d.matchCount b) b (le_refl _)
    have htq' : 0 < d.trigger_quantity.toNat := by omega
    exact (Nat.le_div_iff_mul_le htq').mpr hb
  · exact whileAux_terminates d htq (d.matchCount b) b (le_refl _)

/-- Witness for C6: the bulk rule (A, 3, 130) on the basket A A A A. -/
theorem claim_C6_loop_termination_witness :
    ((DiscountStrategy.BulkDiscount (catalogItem 'A') 3 130).is_applicable
        ⟨[mkItem 'A' 50, mkItem 'A' 50, mkItem 'A' 50, mkItem 'A' 50]⟩ →
      (DiscountStrategy.BulkDiscount (catalogItem 'A') 3 130).matchCount
          ((DiscountStrategy.BulkDiscount (catalogItem 'A') 3 130).apply_discount
            ⟨[mkItem 'A' 50, mkItem 'A' 50, mkItem 'A' 50, mkItem 'A' 50]⟩) <
        (DiscountStrategy.BulkDiscount (catalogItem 'A') 3 130).matchCount
          ⟨[mkItem 'A' 50, mkItem 'A' 50, mkItem 'A' 50, mkItem 'A' 50]⟩) ∧
    loopCount (DiscountStrategy.BulkDiscount (catalogItem 'A') 3 130)
        ⟨[mkItem 'A' 50, mkItem 'A' 50, mkItem 'A' 50, mkItem 'A' 50]⟩ ≤
      (DiscountStrategy.BulkDiscount (catalogItem 'A') 3 130).matchCount
          ⟨[mkItem 'A' 50, mkItem 'A' 50, mkItem 'A' 50, mkItem 'A' 50]⟩ /
        (3 : ℤ).toNat ∧
    ¬ (DiscountStrategy.BulkDiscount (catalogItem 'A') 3 130).is_applicable
        (whileApplicable (DiscountStrategy.BulkDiscount (catalogItem 'A') 3 130)
          ⟨[mkItem 'A' 50, mkItem 'A' 50, mkItem 'A' 50, mkItem 'A' 50]⟩) :=
  claim_C6_loop_termination (DiscountStrategy.BulkDiscount (catalogItem 'A') 3 130)
    ⟨[mkItem 'A' 50, mkItem 'A' 50, mkItem 'A' 50, mkItem 'A' 50]⟩ (by decide)

instance : IsTotal DiscountStrategy magnitudeOrder :=
  ⟨fun a b => le_total b.magnitude a.magnitude⟩

instance : IsTrans DiscountStrategy magnitudeOrder :=
  ⟨fun _ _ _ hab hbc => le_trans hbc hab⟩

/-- C1: the engine sorts the rule list exactly once — `run` is
`apply_discounts` of the sorted list, where the sorted list is a
permutation of the input ordered by descending precomputed magnitude — and
`apply_discounts` folds over the rules in that order, running for each rule
the loop "while `is_applicable`, `apply_discount`" (the loop equation holds
for every rule of the list when trigger quantities are positive). -/
theorem claim_C1_engine_sort_and_loop (b : Basket)
    (rules : List DiscountStrategy)
    (hwf : ∀ r ∈ rules, 1 ≤ r.trigger_quantity) :
    OptimisedAnalysis.run b rules =
      OptimisedAnalysis.apply_discounts b (sortStrategies rules) ∧
    List.Perm (sortStrategies rules) rules ∧
    List.Sorted magnitudeOrder (sortStrategies rules) ∧
    OptimisedAnalysis.apply_discounts b (sortStrategies rules) =
      (sortStrategies rules).foldl (fun bb r => whileApplicable r bb) b ∧
    (∀ r ∈ sortStrategies rules, ∀ bb : Basket,
      whileApplicable r bb =
        if r.is_applicable bb then whileApplicable r (r.apply_discount bb)
        else bb) := by
  refine ⟨rfl, List.perm_insertionSort magnitudeOrder rules,
    List.sorted_insertionSort magnitudeOrder rules, rfl, ?_⟩
  intro r hr bb
  have hrin : r ∈ rules :=
    (List.perm_insertionSort magnitudeOrder rules).mem_iff.mp hr
  exact whileApplicable_unfold r (hwf r hrin) bb

/-- Witness for C1: the fixed checkout rule list on the empty basket. -/
theorem claim_C1_engine_sort_and_loop_witness :
    OptimisedAnalysis.run ⟨[]⟩ discount_strategies =
      OptimisedAnalysis.apply_discounts ⟨[]⟩
        (sortStrategies discount_strategies) ∧
    List.Perm (sortStrategies discount_strategies) discount_strategies ∧
    List.Sorted magnitudeOrder (sortStrategies discount_strategies) ∧
    OptimisedAnalysis.apply_discounts ⟨[]⟩ (sortStrategies discount_strategies) =
      (sortStrategies discount_strategies).foldl
        (fun bb r => whileApplicable r bb) ⟨[]⟩ ∧
    (∀ r ∈ sortStrategies discount_strategies, ∀ bb : Basket,
      whileApplicable r bb =
        if r.is_applicable bb then whileApplicable r (r.apply_discount bb)
        else bb) :=
  claim_C1_engine_sort_and_loop ⟨[]⟩ discount_strategies (by decide)
